import Mathlib

/-!
Verification development for the `just-bash` shell interpreter
(`BashEnv` engine and `ShellParser`).

The definitions below are a shallow embedding of the TypeScript source:
pure functions are translated to Lean functions, the interpreter's mutable
state (environment, local-scope stack, virtual file system) is threaded
explicitly, and fallible collaborator calls (file-system writes that may
throw) are modelled with `Except`.  Machine integers appear only as exit
codes, which the source never arithmetically combines, so they are
modelled as `Int`.
-/

set_option maxHeartbeats 1000000

/-- The result of executing a command or a pipeline:
`{ stdout, stderr, exitCode }` (source: `ExecResult` in `types.ts`). -/
structure ExecResult where
  stdout : String
  stderr : String
  exitCode : Int
deriving Repr, DecidableEq

/-- The chaining operator preceding a `ChainedCommand`.
Source representation: `'' | '&&' | '||' | ';'`, where `''` (here `pipe`)
means "piped from the previous command" and is also the operator of the
first command of a pipeline under normal input. -/
inductive ChainOp where
  | pipe
  | andOp
  | orOp
  | semi
deriving Repr, DecidableEq

/-- Redirection stream kind (source: `Redirection.type`). -/
inductive RedirType where
  | stdout
  | stderr
  | stdin
  | stderrToStdout
deriving Repr, DecidableEq

/-- A parsed redirection (source: `Redirection` in `shell/parser.ts`):
`target` is `none` only for `2>&1`. -/
structure Redirection where
  type : RedirType
  target : Option String
  append : Bool
deriving Repr, DecidableEq

namespace BashEnv

/-- One chained command of a pipeline, as consumed by
`BashEnv.executePipeline`.  The dispatch of the parsed command through
`executeCommand` is abstracted into `run`: the command's observable
behaviour as a function of the stdin it is handed.  The pipeline loop
under verification never inspects anything else of a command: its
decisions depend only on `operator` and the `ExecResult`s. -/
structure Chained where
  operator : ChainOp
  run : String → ExecResult

/-- Loop state of `executePipeline`: the mutable locals
`stdin`, `lastResult`, `accumulatedStdout`, `accumulatedStderr` of the
source loop, plus a ghost trace `executed` recording, in execution
order, each executed command's index and the stdin it received. -/
structure LoopState where
  stdin : String
  lastResult : ExecResult
  accStdout : String
  accStderr : String
  executed : List (Nat × String)

/-- The body of the `for` loop of `BashEnv.executePipeline`
(src/unnamed/part_001 lines 378–411), translated step by step:
skip on `&&`/`||` according to `lastResult.exitCode`; pipe stdout to the
next command when the next command's operator is `''`, otherwise
accumulate it; always accumulate stderr. -/
def pipelineSteps (initialStdin : String) : List Chained → Nat → LoopState → LoopState
  | [], _, st => st
  | c :: rest, i, st =>
    if (c.operator == ChainOp.andOp && st.lastResult.exitCode != 0)
        || (c.operator == ChainOp.orOp && st.lastResult.exitCode == 0) then
      pipelineSteps initialStdin rest (i + 1) st
    else
      -- `isPipedInput`: the operator of this command is `''`
      let isPipedInput := c.operator == ChainOp.pipe
      -- `nextOperator = nextCommand?.operator || ''`
      let nextIsPipe := match rest with
        | [] => true
        | c2 :: _ => c2.operator == ChainOp.pipe
      let commandStdin := if isPipedInput && decide (0 < i) then st.stdin else initialStdin
      let result := c.run commandStdin
      -- `isPipedOutput && i < pipeline.commands.length - 1`
      let st1 := if nextIsPipe && !rest.isEmpty then
          { st with stdin := result.stdout }
        else
          { st with accStdout := st.accStdout ++ result.stdout }
      pipelineSteps initialStdin rest (i + 1)
        { st1 with
            accStderr := st.accStderr ++ result.stderr
            lastResult := result
            executed := st.executed ++ [(i, commandStdin)] }

/-- `BashEnv.executePipeline` (src/unnamed/part_001 lines 372–418),
returning the final loop state; `executePipeline` and
`pipelineExecuted` project out the `ExecResult` and the ghost trace. -/
def executePipelineState (cmds : List Chained) (initialStdin : String) : LoopState :=
  pipelineSteps initialStdin cmds 0
    { stdin := initialStdin
      lastResult := { stdout := "", stderr := "", exitCode := 0 }
      accStdout := ""
      accStderr := ""
      executed := [] }

/-- The `ExecResult` returned by `BashEnv.executePipeline`. -/
def executePipeline (cmds : List Chained) (initialStdin : String) : ExecResult :=
  let st := executePipelineState cmds initialStdin
  { stdout := st.accStdout, stderr := st.accStderr, exitCode := st.lastResult.exitCode }

/-- Ghost trace of `executePipeline`: the indices of the commands that
were actually executed, in order, each with the stdin it received. -/
def pipelineExecuted (cmds : List Chained) (initialStdin : String) : List (Nat × String) :=
  (executePipelineState cmds initialStdin).executed

end BashEnv

section ClaimC1C2

open BashEnv

/-- C1: in one pipeline, `A && B` runs `B` iff `A`'s exit code is `0`;
`A || B` runs `B` iff `A`'s exit code is non-zero; `A ; B` runs both `A`
and `B` regardless of `A`'s exit code (`A` itself, first in the
pipeline, always runs in all three forms). -/
theorem claim_C1_chain_operator_semantics
    (A B : String → ExecResult) (s : String) :
    ((0, s) ∈ pipelineExecuted [⟨ChainOp.pipe, A⟩, ⟨ChainOp.andOp, B⟩] s
        ∧ ((1, s) ∈ pipelineExecuted [⟨ChainOp.pipe, A⟩, ⟨ChainOp.andOp, B⟩] s
            ↔ (A s).exitCode = 0))
    ∧ ((0, s) ∈ pipelineExecuted [⟨ChainOp.pipe, A⟩, ⟨ChainOp.orOp, B⟩] s
        ∧ ((1, s) ∈ pipelineExecuted [⟨ChainOp.pipe, A⟩, ⟨ChainOp.orOp, B⟩] s
            ↔ (A s).exitCode ≠ 0))
    ∧ pipelineExecuted [⟨ChainOp.pipe, A⟩, ⟨ChainOp.semi, B⟩] s = [(0, s), (1, s)] := by
  refine ⟨⟨?_, ?_⟩, ⟨?_, ?_⟩, ?_⟩ <;>
    simp only [pipelineExecuted, executePipelineState, pipelineSteps] <;>
    by_cases h : (A s).exitCode = 0 <;>
    simp [h]

/-- C2: for a pipeline `A | B`, `B` receives exactly `A`'s accumulated
stdout as stdin, the pipeline's stdout is `B`'s stdout alone (`A`'s is
not accumulated), stderr of both commands is accumulated in order and
never piped, the exit code is `B`'s, and the trace shows `A` executed
to completion (its whole stdout available) before `B` starts. -/
theorem claim_C2_pipe_buffering
    (A B : String → ExecResult) (s : String) :
    executePipeline [⟨ChainOp.pipe, A⟩, ⟨ChainOp.pipe, B⟩] s =
      { stdout := (B (A s).stdout).stdout
        stderr := (A s).stderr ++ (B (A s).stdout).stderr
        exitCode := (B (A s).stdout).exitCode }
    ∧ pipelineExecuted [⟨ChainOp.pipe, A⟩, ⟨ChainOp.pipe, B⟩] s =
        [(0, s), (1, (A s).stdout)] := by
  constructor <;>
    simp [executePipeline, pipelineExecuted, executePipelineState, pipelineSteps]

end ClaimC1C2

namespace BashEnv

/-- One branch of a parsed if-statement (source: the
`{ condition: string | null; body: string }` records built by
`BashEnv.parseIfStatement`); `condition = none` is the else branch. -/
structure Branch where
  condition : Option String
  body : String
deriving Repr, DecidableEq

/-- The evaluation loop of `BashEnv.executeIfStatement`
(src/unnamed/part_001 lines 199–220), with the recursive call
`this.exec` abstracted as `ex`.  `acc` carries the mutable locals
`stdout`, `stderr`, `exitCode` (initially `"", "", 0`).  Note that
`condResult` is used only for its exit code: the condition's own
stdout/stderr are discarded, never accumulated. -/
def evalBranches (ex : String → ExecResult) (acc : ExecResult) : List Branch → ExecResult
  | [] => acc
  | b :: rest =>
    match b.condition with
    | none =>
      -- else branch: execute it and break
      let result := ex b.body
      { stdout := acc.stdout ++ result.stdout
        stderr := acc.stderr ++ result.stderr
        exitCode := result.exitCode }
    | some cond =>
      let condResult := ex cond
      if condResult.exitCode == 0 then
        let result := ex b.body
        { stdout := acc.stdout ++ result.stdout
          stderr := acc.stderr ++ result.stderr
          exitCode := result.exitCode }
      else
        evalBranches ex acc rest

/-- `BashEnv.executeIfStatement` (src/unnamed/part_001 lines 188–223)
applied to an already-parsed branch list. -/
def executeIfStatement (ex : String → ExecResult) (branches : List Branch) : ExecResult :=
  evalBranches ex { stdout := "", stderr := "", exitCode := 0 } branches

/-- Evaluation of failing-condition branches leaves the accumulator
untouched: their conditions' output is discarded. -/
theorem evalBranches_skip (ex : String → ExecResult) (acc : ExecResult)
    (pre l : List Branch)
    (hpre : ∀ c ∈ pre, ∃ s, c.condition = some s ∧ (ex s).exitCode ≠ 0) :
    evalBranches ex acc (pre ++ l) = evalBranches ex acc l := by
  induction pre with
  | nil => rfl
  | cons b rest ih =>
    obtain ⟨s, hs, hne⟩ := hpre b (by simp)
    rw [List.cons_append, evalBranches, hs]
    simp only [beq_iff_eq, if_neg hne]
    exact ih fun c hc => hpre c (by simp [hc])

end BashEnv

section ClaimC3

open BashEnv

/-- Concrete recursive-`exec` behaviour for the C3 counterexample: the
condition `echo hi` succeeds with stdout `"hi\n"`; the body `echo yes`
succeeds with stdout `"yes\n"`. -/
def exC3 : String → ExecResult := fun s =>
  if s == "echo hi" then { stdout := "hi\n", stderr := "", exitCode := 0 }
  else if s == "echo yes" then { stdout := "yes\n", stderr := "", exitCode := 0 }
  else { stdout := "", stderr := "", exitCode := 1 }

/-- C3 counterexample: for `if echo hi; then echo yes; fi` the claim
predicts stdout `"hi\nyes\n"` (condition output concatenated with body
output), but the engine returns `"yes\n"`: the condition's output is
discarded. -/
theorem claim_C3_counterexample :
    executeIfStatement exC3 [⟨some "echo hi", "echo yes"⟩] =
      { stdout := "yes\n", stderr := "", exitCode := 0 }
    ∧ ("yes\n" : String) ≠ "hi\n" ++ "yes\n" := by
  exact ⟨rfl, by decide⟩

/-- C3 (amended): the executed condition's own output is *discarded*
(not concatenated): when the first branch whose condition succeeds (or
the null-condition else branch) is reached after zero or more branches
whose conditions fail, the if-statement's result is exactly the
executed body's stdout, stderr and exit code; when every branch has a
failing condition and there is no else, the result is exit code 0 with
empty stdout and stderr. -/
theorem claim_C3_if_result_amended (ex : String → ExecResult)
    (pre post : List Branch) (b : Branch)
    (hpre : ∀ c ∈ pre, ∃ s, c.condition = some s ∧ (ex s).exitCode ≠ 0)
    (hb : b.condition = none ∨ ∃ s, b.condition = some s ∧ (ex s).exitCode = 0) :
    executeIfStatement ex (pre ++ b :: post) =
      { stdout := (ex b.body).stdout
        stderr := (ex b.body).stderr
        exitCode := (ex b.body).exitCode }
    ∧ executeIfStatement ex pre = { stdout := "", stderr := "", exitCode := 0 } := by
  constructor
  · rw [executeIfStatement, evalBranches_skip ex _ pre _ hpre]
    rcases hb with hnone | ⟨s, hs, hz⟩
    · simp [evalBranches, hnone]
    · simp [evalBranches, hs, hz]
  · rw [executeIfStatement, show pre = pre ++ [] from (List.append_nil pre).symm,
      evalBranches_skip ex _ pre _ hpre]
    rfl

/-- Witness for C3's amended theorem at a concrete input. -/
theorem claim_C3_if_result_amended_witness :
    executeIfStatement exC3 ([⟨some "false", "echo no"⟩] ++ ⟨some "echo hi", "echo yes"⟩ :: []) =
      { stdout := "yes\n", stderr := "", exitCode := 0 }
    ∧ executeIfStatement exC3 [⟨some "false", "echo no"⟩] =
      { stdout := "", stderr := "", exitCode := 0 } := by
  have h := claim_C3_if_result_amended exC3 [⟨some "false", "echo no"⟩] []
    ⟨some "echo hi", "echo yes"⟩
    (by intro c hc; simp at hc; exact ⟨"false", by simp [hc], by simp [hc, exC3]⟩)
    (Or.inr ⟨"echo hi", rfl, by decide⟩)
  simpa using h

end ClaimC3

/-- State of the file-system collaborator as observed through the
redirection path: `files` is an association of absolute path to
content (modelling JS object-key update semantics), and `failing`
lists paths whose `writeFile`/`appendFile` throws, modelling the
"all operations may fail" part of the `IFileSystem` contract. -/
structure FsState where
  files : List (String × String)
  failing : List String
deriving Repr, DecidableEq

/-- JS object / `Map` key lookup over an association list (value type
is generic: the engine uses string-valued objects and a
`Map<string, string | undefined>` for local-scope frames). -/
def objGet {α : Type} : List (String × α) → String → Option α
  | [], _ => none
  | kv :: rest, path => if kv.1 == path then some kv.2 else objGet rest path

/-- `fsGet fs p` is the content of `p`, if present. -/
def fsGet (fs : FsState) (path : String) : Option String :=
  objGet fs.files path

/-- JS object / `Map` key update: replace the binding if present, else
append it (preserving insertion order, as JS iteration does). -/
def objSet {α : Type} : List (String × α) → String → α → List (String × α)
  | [], path, content => [(path, content)]
  | kv :: rest, path, content =>
    if kv.1 == path then (path, content) :: rest else kv :: objSet rest path content

/-- JS `delete obj[key]`: remove the binding, if any. -/
def objDel {α : Type} (l : List (String × α)) (key : String) : List (String × α) :=
  l.filter (fun kv => kv.1 != key)

/-- JS `key in obj` / `map.has(key)`. -/
def objHas {α : Type} (l : List (String × α)) (key : String) : Bool :=
  l.any (fun kv => kv.1 == key)

/-- `IFileSystem.writeFile`: overwrite `path` with `content`, throwing
for paths in `failing`. -/
def fsWrite (fs : FsState) (path content : String) : Except String FsState :=
  if path ∈ fs.failing then
    Except.error ("EACCES: permission denied, open " ++ path)
  else
    Except.ok { fs with files := objSet fs.files path content }

/-- `IFileSystem.appendFile`: append `content` to `path` (creating it
if absent), throwing for paths in `failing`. -/
def fsAppend (fs : FsState) (path content : String) : Except String FsState :=
  if path ∈ fs.failing then
    Except.error ("EACCES: permission denied, open " ++ path)
  else
    Except.ok { fs with files := objSet fs.files path ((objGet fs.files path).getD "" ++ content) }

theorem objGet_objSet_self {α : Type} (files : List (String × α)) (p : String) (c : α) :
    objGet (objSet files p c) p = some c := by
  induction files with
  | nil => simp [objGet, objSet]
  | cons kv rest ih =>
    rw [objSet]
    split
    · simp [objGet]
    · next h =>
      rw [objGet, if_neg h]
      exact ih

theorem objGet_objSet_of_ne {α : Type} (files : List (String × α)) (p q : String) (c : α)
    (h : q ≠ p) :
    objGet (objSet files p c) q = objGet files q := by
  induction files with
  | nil => simp [objGet, objSet, Ne.symm h]
  | cons kv rest ih =>
    rw [objSet]
    split
    · next heq =>
      have hp : kv.1 = p := by simpa using heq
      simp [objGet, hp, Ne.symm h]
    · next hne =>
      by_cases hq : kv.1 = q
      · simp [objGet, hq]
      · simp [objGet, hq, ih]

theorem objGet_objDel_self {α : Type} (l : List (String × α)) (k : String) :
    objGet (objDel l k) k = none := by
  induction l with
  | nil => rfl
  | cons kv rest ih =>
    by_cases hk : kv.1 = k
    · simpa [objDel, hk] using ih
    · simpa [objDel, objGet, hk] using ih

theorem objGet_objDel_of_ne {α : Type} (l : List (String × α)) (k q : String) (h : q ≠ k) :
    objGet (objDel l k) q = objGet l q := by
  induction l with
  | nil => rfl
  | cons kv rest ih =>
    by_cases hk : kv.1 = k
    · simpa [objDel, objGet, hk, Ne.symm h] using ih
    · by_cases hq : kv.1 = q
      · simp [objDel, List.filter_cons, objGet, hk, hq, h]
      · simpa [objDel, List.filter_cons, objGet, hk, hq] using ih

theorem objGet_eq_none_of_not_objHas {α : Type} (l : List (String × α)) (k : String)
    (h : objHas l k = false) : objGet l k = none := by
  induction l with
  | nil => rfl
  | cons kv rest ih =>
    simp only [objHas, List.any_cons, Bool.or_eq_false_iff] at h
    rw [objGet, if_neg (by simp [h.1])]
    exact ih (by simp [objHas, h.2])

namespace BashEnv

/-- `BashEnv.applyRedirections` (src/unnamed/part_001 lines 554–593):
apply redirections to a produced `ExecResult` in source order.
`resolve` abstracts `this.resolvePath` (delegation to
`fs.resolvePath(cwd, target)`).  File-system failures propagate as
`Except.error` — the source has no try/catch here. -/
def applyRedirections (resolve : String → String) (fs : FsState) (r : ExecResult) :
    List Redirection → Except String (ExecResult × FsState)
  | [] => Except.ok (r, fs)
  | redir :: rest =>
    match redir.type with
    | RedirType.stdout =>
      match redir.target with
      | some target =>
        let filePath := resolve target
        match (if redir.append then fsAppend fs filePath r.stdout
               else fsWrite fs filePath r.stdout) with
        | Except.error e => Except.error e
        | Except.ok fs2 => applyRedirections resolve fs2 { r with stdout := "" } rest
      | none => applyRedirections resolve fs r rest
    | RedirType.stderr =>
      if redir.target == some "/dev/null" then
        applyRedirections resolve fs { r with stderr := "" } rest
      else
        match redir.target with
        | some target =>
          let filePath := resolve target
          match (if redir.append then fsAppend fs filePath r.stderr
                 else fsWrite fs filePath r.stderr) with
          | Except.error e => Except.error e
          | Except.ok fs2 => applyRedirections resolve fs2 { r with stderr := "" } rest
        | none => applyRedirections resolve fs r rest
    | RedirType.stderrToStdout =>
      applyRedirections resolve fs
        { r with stdout := r.stdout ++ r.stderr, stderr := "" } rest
    | RedirType.stdin =>
      -- no case for 'stdin' in the source switch: nothing is applied
      applyRedirections resolve fs r rest

/-- The command-dispatch tail of `BashEnv.executeCommand`
(src/unnamed/part_001 lines 536–551): run the resolved command's
`execute` inside a try/catch that converts a thrown error into an
`ExecResult` with exit code 1 and a message prefixed by the raw
invoking command word, then apply redirections — the redirection call
sits *outside* the try/catch.  `execu` abstracts
`cmd.execute(expandedArgs, ctx)` acting on the shared file system:
it returns its outcome (possibly a thrown message) and the file
system as the command left it. -/
def dispatchCommand (resolve : String → String) (fs : FsState) (command : String)
    (execu : FsState → (Except String ExecResult) × FsState)
    (redirections : List Redirection) : Except String (ExecResult × FsState) :=
  let (outcome, fs1) := execu fs
  let result := match outcome with
    | Except.ok r => r
    | Except.error message =>
      { stdout := "", stderr := command ++ ": " ++ message ++ "\n", exitCode := 1 }
  applyRedirections resolve fs1 result redirections

end BashEnv

section ClaimC4

open BashEnv

/-- C4 counterexample: a command that succeeds with stdout `"x"` but
whose `> /log` redirection hits a throwing `writeFile` makes
`dispatchCommand` propagate the collaborator exception (an
`Except.error`, i.e. it escapes `exec`) instead of producing an
`ExecResult` with exit code 1. -/
theorem claim_C4_counterexample :
    dispatchCommand id { files := [], failing := ["/log"] } "echo"
        (fun fs => (Except.ok { stdout := "x", stderr := "", exitCode := 0 }, fs))
        [⟨RedirType.stdout, some "/log", false⟩] =
      Except.error "EACCES: permission denied, open /log" := by
  rfl

/-- C4 (amended): the try/catch at the command-dispatch boundary
converts a failure thrown by the command's `execute` into an
`ExecResult` with exit code 1 and a stderr message prefixed by the
invoking command's name; but redirection application runs *outside*
that try/catch, so a `writeFile` failure while applying a redirection
escapes `exec` as an exception. -/
theorem claim_C4_dispatch_catch_amended (resolve : String → String) (fs : FsState)
    (command message target : String) (r : ExecResult) (rest : List Redirection)
    (hfail : resolve target ∈ fs.failing) :
    dispatchCommand resolve fs command (fun f => (Except.error message, f)) [] =
      Except.ok ({ stdout := ""
                   stderr := command ++ ": " ++ message ++ "\n"
                   exitCode := 1 }, fs)
    ∧ dispatchCommand resolve fs command (fun f => (Except.ok r, f))
        (⟨RedirType.stdout, some target, false⟩ :: rest) =
      Except.error ("EACCES: permission denied, open " ++ resolve target) := by
  constructor
  · rfl
  · simp [dispatchCommand, applyRedirections, fsWrite, hfail]

/-- Witness for C4's amended theorem at a concrete input. -/
theorem claim_C4_dispatch_catch_amended_witness :
    dispatchCommand id { files := [], failing := ["/log"] } "cat"
        (fun f => (Except.error "ENOENT: no such file or directory, open /a", f)) [] =
      Except.ok ({ stdout := ""
                   stderr := "cat: ENOENT: no such file or directory, open /a\n"
                   exitCode := 1 }, { files := [], failing := ["/log"] })
    ∧ dispatchCommand id { files := [], failing := ["/log"] } "cat"
        (fun f => (Except.ok { stdout := "y", stderr := "", exitCode := 0 }, f))
        [⟨RedirType.stdout, some "/log", false⟩] =
      Except.error ("EACCES: permission denied, open " ++ id "/log") :=
  claim_C4_dispatch_catch_amended id { files := [], failing := ["/log"] } "cat"
    "ENOENT: no such file or directory, open /a" "/log"
    { stdout := "y", stderr := "", exitCode := 0 } [] (by decide)

end ClaimC4

section ClaimC7

open BashEnv

/-- C7 counterexample: for a command with stdout `"x"` and the two
redirections `> /f1 > /f2`, the stream's content ends up at the
*earlier* target `/f1`; the later redirection's write executes on the
already-cleared buffer, leaving `/f2` empty — not, as claimed, the
content at the later target. -/
theorem claim_C7_counterexample :
    applyRedirections id { files := [], failing := [] }
        { stdout := "x", stderr := "", exitCode := 0 }
        [⟨RedirType.stdout, some "/f1", false⟩, ⟨RedirType.stdout, some "/f2", false⟩] =
      Except.ok ({ stdout := "", stderr := "", exitCode := 0 },
        { files := [("/f1", "x"), ("/f2", "")], failing := [] })
    ∧ fsGet { files := [("/f1", "x"), ("/f2", "")], failing := [] } "/f2" = some ""
    ∧ fsGet { files := [("/f1", "x"), ("/f2", "")], failing := [] } "/f1" = some "x"
    ∧ (some "" : Option String) ≠ some "x" := by
  exact ⟨rfl, rfl, rfl, by decide⟩

/-- C7 (amended): redirections are applied in source order, and each
one on a stream clears that stream's buffer after writing it; hence
for two (non-append) stdout redirections on one command the *first*
target receives the stream's content while the later redirection still
executes its write — of the now-empty buffer — creating or truncating
the later target. -/
theorem claim_C7_redirection_order_amended (resolve : String → String) (fs : FsState)
    (out err f1 f2 : String) (ec : Int)
    (h1 : resolve f1 ∉ fs.failing) (h2 : resolve f2 ∉ fs.failing)
    (hne : resolve f2 ≠ resolve f1) :
    applyRedirections resolve fs { stdout := out, stderr := err, exitCode := ec }
        [⟨RedirType.stdout, some f1, false⟩, ⟨RedirType.stdout, some f2, false⟩] =
      Except.ok ({ stdout := "", stderr := err, exitCode := ec },
        { fs with files := objSet (objSet fs.files (resolve f1) out) (resolve f2) "" })
    ∧ objGet (objSet (objSet fs.files (resolve f1) out) (resolve f2) "") (resolve f1) = some out
    ∧ objGet (objSet (objSet fs.files (resolve f1) out) (resolve f2) "") (resolve f2) = some "" := by
  refine ⟨?_, ?_, ?_⟩
  · simp [applyRedirections, fsWrite, h1, h2]
  · rw [objGet_objSet_of_ne _ _ _ _ (Ne.symm hne)]
    exact objGet_objSet_self _ _ _
  · exact objGet_objSet_self _ _ _

/-- Witness for C7's amended theorem at a concrete input. -/
theorem claim_C7_redirection_order_amended_witness :
    applyRedirections id { files := [], failing := [] }
        { stdout := "hello\n", stderr := "", exitCode := 0 }
        [⟨RedirType.stdout, some "/a", false⟩, ⟨RedirType.stdout, some "/b", false⟩] =
      Except.ok ({ stdout := "", stderr := "", exitCode := 0 },
        { files := objSet (objSet [] (id "/a") "hello\n") (id "/b") "", failing := [] })
    ∧ objGet (objSet (objSet [] (id "/a") "hello\n") (id "/b") "") (id "/a") = some "hello\n"
    ∧ objGet (objSet (objSet [] (id "/a") "hello\n") (id "/b") "") (id "/b") = some "" :=
  claim_C7_redirection_order_amended id { files := [], failing := [] }
    "hello\n" "" "/a" "/b" 0 (by decide) (by decide) (by decide)

end ClaimC7

namespace BashEnv

/-- `this.env`: the engine's mutable variable environment, a JS object
mapping names to string values. -/
abbrev Env := List (String × String)

/-- One local-scope frame: the JS `Map<string, string | undefined>`
pushed per function call; `none` records "the variable did not exist
before". -/
abbrev Frame := List (String × Option String)

/-- The engine state touched by `local` and the function-call
protocol: `env` and the `localScopes` stack (head = innermost frame). -/
structure ShellState where
  env : Env
  localScopes : List Frame
deriving Repr, DecidableEq

/-- `arg.indexOf('=')` with the `eqIndex > 0` guard of `handleLocal`
(src/unnamed/part_001 lines 651–662): `NAME=value` with a nonempty
`NAME` splits; otherwise the whole argument is the name with no
value. -/
def parseLocalArg (arg : String) : String × Option String :=
  match arg.data.findIdx? (· == '=') with
  | some i =>
    if 0 < i then
      (String.mk (arg.data.take i), some (String.mk (arg.data.drop (i + 1))))
    else
      (arg, none)
  | none => (arg, none)

/-- The per-argument body of `BashEnv.handleLocal`'s loop
(src/unnamed/part_001 lines 651–677): record the variable's current
value in the active frame only on first touch, then set the new value
(or the empty string if declared without a value and not already
present). -/
def localStep (acc : Env × Frame) (arg : String) : Env × Frame :=
  let (env, scope) := acc
  let (varName, value) := parseLocalArg arg
  -- Save the original value only if not already saved in this scope
  let scope := if objHas scope varName then scope
               else scope ++ [(varName, objGet env varName)]
  -- Set the new value
  let env := match value with
    | some v => objSet env varName v
    | none => if (objGet env varName).isSome then env else objSet env varName ""
  (env, scope)

/-- `BashEnv.handleLocal` (src/unnamed/part_001 lines 639–680). -/
def handleLocal (st : ShellState) (args : List String) : ShellState × ExecResult :=
  match st.localScopes with
  | [] =>
    (st, { stdout := ""
           stderr := "bash: local: can only be used in a function\n"
           exitCode := 1 })
  | currentScope :: restScopes =>
    let (env, scope) := args.foldl localStep (st.env, currentScope)
    ({ env := env, localScopes := scope :: restScopes },
     { stdout := "", stderr := "", exitCode := 0 })

/-- The positional-parameter names `"1"`..`"n"` bound for a call with
`n` arguments. -/
def positionalNames (n : Nat) : List String :=
  (List.range n).map (fun i => toString (i + 1))

/-- Positional-parameter binding on function entry
(src/unnamed/part_001 lines 484–488): `env[String(i+1)] = args[i]`,
then `env['@']` and `env['#']`. -/
def bindPositionals (env : Env) (args : List String) : Env :=
  let env := (List.zip (positionalNames args.length) args).foldl
    (fun e kv => objSet e kv.1 kv.2) env
  let env := objSet env "@" (String.intercalate " " args)
  objSet env "#" (toString args.length)

/-- Restoration of shadowed variables on function exit
(src/unnamed/part_001 lines 494–501): iterate the popped frame in
insertion order; `none` deletes the variable, `some v` restores it. -/
def restoreFrame (env : Env) : Frame → Env
  | [] => env
  | kv :: rest =>
    restoreFrame (match kv.2 with
      | none => objDel env kv.1
      | some v => objSet env kv.1 v) rest

/-- Positional-parameter cleanup on function exit
(src/unnamed/part_001 lines 503–508): delete `"1"`..`"n"`, then `"@"`
and `"#"` — after the frame restoration. -/
def cleanupPositionals (env : Env) (n : Nat) : Env :=
  objDel (objDel ((positionalNames n).foldl objDel env) "@") "#"

/-- The user-defined-function call protocol of `BashEnv.executeCommand`
(src/unnamed/part_001 lines 477–511): push a fresh local frame, bind
positional parameters, run the function body (abstracted as `body`,
the recursive `this.exec(funcBody)` acting on the state), then pop the
frame, restore its recorded variables and remove the positional
bindings.  The `[]` branch mirrors `this.localScopes.pop()!` finding
an empty stack, which cannot happen when `body` respects the stack
discipline. -/
def callFunction (st : ShellState) (args : List String)
    (body : ShellState → ShellState × ExecResult) : ShellState × ExecResult :=
  let st1 : ShellState :=
    { env := bindPositionals st.env args, localScopes := [] :: st.localScopes }
  let st2 := (body st1).1
  let result := (body st1).2
  match st2.localScopes with
  | [] => (st2, result)
  | localScope :: rest =>
    ({ env := cleanupPositionals (restoreFrame st2.env localScope) args.length
       localScopes := rest }, result)

/-- Frame entries whose key differs from `name` do not affect the
restored value of `name`. -/
theorem objGet_restoreFrame_of_not_mem (env : Env) (scope : Frame) (name : String)
    (h : name ∉ scope.map Prod.fst) :
    objGet (restoreFrame env scope) name = objGet env name := by
  induction scope generalizing env with
  | nil => rfl
  | cons kv rest ih =>
    simp only [List.map_cons, List.mem_cons, not_or] at h
    rw [restoreFrame]
    rw [ih _ h.2]
    match hv : kv.2 with
    | none => exact objGet_objDel_of_ne _ _ _ h.1
    | some v => exact objGet_objSet_of_ne _ _ _ _ h.1

/-- Restoring a frame with distinct keys (JS `Map` keys are unique)
sets each recorded variable back to exactly its recorded value —
deleting it when the record is `none`. -/
theorem objGet_restoreFrame (env : Env) (scope : Frame) (name : String) (ov : Option String)
    (hnodup : (scope.map Prod.fst).Nodup) (hrec : objGet scope name = some ov) :
    objGet (restoreFrame env scope) name = ov := by
  induction scope generalizing env with
  | nil => simp [objGet] at hrec
  | cons kv rest ih =>
    obtain ⟨k, w⟩ := kv
    rw [List.map_cons, List.nodup_cons] at hnodup
    rw [objGet] at hrec
    by_cases hk : k = name
    · subst hk
      rw [if_pos (by simp)] at hrec
      injection hrec with hrec
      subst hrec
      rw [restoreFrame, objGet_restoreFrame_of_not_mem _ _ _ hnodup.1]
      cases w with
      | none => exact objGet_objDel_self env k
      | some v => exact objGet_objSet_self env k v
    · rw [if_neg (by simp [hk])] at hrec
      rw [restoreFrame]
      exact ih _ hnodup.2 hrec

/-- Deleting a list of keys not containing `name` leaves `name`'s
value unchanged. -/
theorem objGet_foldl_objDel (env : Env) (ks : List String) (name : String)
    (h : name ∉ ks) :
    objGet (ks.foldl objDel env) name = objGet env name := by
  induction ks generalizing env with
  | nil => rfl
  | cons k rest ih =>
    simp only [List.mem_cons, not_or] at h
    rw [List.foldl_cons, ih _ h.2, objGet_objDel_of_ne _ _ _ h.1]

/-- Positional-parameter cleanup does not touch names outside
`"1"`..`"n"`, `"@"`, `"#"`. -/
theorem objGet_cleanupPositionals (env : Env) (n : Nat) (name : String)
    (h : name ∉ positionalNames n ++ ["@", "#"]) :
    objGet (cleanupPositionals env n) name = objGet env name := by
  have h1 : name ∉ positionalNames n := fun hm => h (List.mem_append.2 (Or.inl hm))
  have h2 : name ≠ "@" := fun hm => h (by simp [hm])
  have h3 : name ≠ "#" := fun hm => h (by simp [hm])
  rw [cleanupPositionals, objGet_objDel_of_ne _ _ _ h3, objGet_objDel_of_ne _ _ _ h2,
    objGet_foldl_objDel _ _ _ h1]

end BashEnv

namespace BashEnv

/-- Appending a fresh record to a frame that does not yet hold the key
makes it the one found. -/
theorem objGet_append_singleton_self {α : Type} (l : List (String × α)) (k : String) (v : α)
    (h : objHas l k = false) : objGet (l ++ [(k, v)]) k = some v := by
  induction l with
  | nil => simp [objGet]
  | cons kv rest ih =>
    simp only [objHas, List.any_cons, Bool.or_eq_false_iff] at h
    rw [List.cons_append, objGet, if_neg (by simp [h.1])]
    exact ih (by simp [objHas, h.2])

end BashEnv

section ClaimC6

open BashEnv

/-- Pre-call state for the C6 counterexample: `v` holds `"pre"`,
no function call in progress. -/
def stC6 : ShellState := { env := [("v", "pre")], localScopes := [] }

/-- Function body for the C6 counterexample, modelling
`f() { v=modified; local v=x; }`: the plain assignment `v=modified`
goes through `executeCommand`'s `VAR=value` path (src/unnamed/part_001
lines 466–475), which writes `this.env` directly without recording
anything in the local scope, and then `local v=x` records the
*current* value `"modified"`. -/
def bodyC6 : ShellState → ShellState × ExecResult := fun st =>
  handleLocal { st with env := objSet st.env "v" "modified" } ["v=x"]

/-- C6 counterexample: after `f` returns, `v` holds `"modified"` — the
value recorded at the `local` declaration — not its pre-call value
`"pre"` as the claim states. -/
theorem claim_C6_counterexample :
    objGet (callFunction stC6 [] bodyC6).1.env "v" = some "modified"
    ∧ (some "modified" : Option String) ≠ some "pre" := by
  exact ⟨by decide, by decide⟩

/-- C6 (amended): `local` records a variable's *current* value the
first time it is touched in the active frame (subsequent `local`s of
the same name leave the record unchanged), and on return every
variable recorded in the call's frame whose name is not one of the
call's positional bindings (`"1"`..`"n"`, `"@"`, `"#"`) is restored to
exactly that recorded value — deleted if the record says it was absent.
The recorded value equals the pre-call value whenever the function did
not itself modify the variable before its first `local` declaration;
otherwise (see the counterexample) the later value wins.  `local NAME`
without a value still sets `NAME` to the empty string only when `NAME`
is not already present. -/
theorem claim_C6_local_scope_amended
    (st : ShellState) (args : List String) (body : ShellState → ShellState × ExecResult)
    (frame : Frame) (name : String) (ov : Option String)
    (hstack : ((body { env := bindPositionals st.env args
                       localScopes := [] :: st.localScopes }).1).localScopes
        = frame :: st.localScopes)
    (hnodup : (frame.map Prod.fst).Nodup)
    (hrec : objGet frame name = some ov)
    (hnotpos : name ∉ positionalNames args.length ++ ["@", "#"])
    (env0 : Env) (scope0 : Frame) (arg0 name0 : String) (val0 : Option String)
    (hparse : parseLocalArg arg0 = (name0, val0)) :
    objGet (callFunction st args body).1.env name = ov
    ∧ objGet (localStep (env0, scope0) arg0).2 name0 =
        (if objHas scope0 name0 then objGet scope0 name0
         else some (objGet env0 name0))
    ∧ objGet (localStep (env0, scope0) arg0).1 name0 =
        (match val0 with
         | some v => some v
         | none => if (objGet env0 name0).isSome then objGet env0 name0
                   else some "") := by
  refine ⟨?_, ?_, ?_⟩
  · simp only [callFunction, hstack]
    rw [objGet_cleanupPositionals _ _ _ hnotpos,
      objGet_restoreFrame _ _ _ _ hnodup hrec]
  · simp only [localStep, hparse]
    by_cases hhas : objHas scope0 name0
    · simp [hhas]
    · simp only [hhas, Bool.false_eq_true, if_false, if_neg hhas]
      exact objGet_append_singleton_self _ _ _ (by simpa using hhas)
  · simp only [localStep, hparse]
    cases val0 with
    | some v => exact objGet_objSet_self _ _ _
    | none =>
      by_cases hs : (objGet env0 name0).isSome
      · simp [hs]
      · simp only [hs, Bool.false_eq_true, if_false]
        exact objGet_objSet_self _ _ _

/-- Witness for C6's amended theorem at a concrete input:
`x=outer` before the call; `f() { local x=inner; }` invoked with one
argument. -/
theorem claim_C6_local_scope_amended_witness :
    objGet (callFunction { env := [("x", "outer")], localScopes := [] } ["a"]
        (fun s => handleLocal s ["x=inner"])).1.env "x" = some "outer"
    ∧ objGet (localStep ([("y", "1")], ([] : Frame)) "x=inner").2 "x" =
        (if objHas ([] : Frame) "x" then objGet ([] : Frame) "x"
         else some (objGet [("y", "1")] "x"))
    ∧ objGet (localStep ([("y", "1")], ([] : Frame)) "x=inner").1 "x" =
        (match (some "inner" : Option String) with
         | some v => some v
         | none => if (objGet [("y", "1")] "x").isSome then objGet [("y", "1")] "x"
                   else some "") :=
  claim_C6_local_scope_amended
    { env := [("x", "outer")], localScopes := [] } ["a"]
    (fun s => handleLocal s ["x=inner"])
    [("x", some "outer")] "x" (some "outer")
    (by decide) (by decide) (by decide) (by decide)
    [("y", "1")] [] "x=inner" "x" (some "inner") (by decide)

end ClaimC6

namespace BashEnv

/-- Modelled from the spec: the ExecResult produced when the
Execution Governor's call-depth limit is exceeded — "exit code
non-zero, message naming the limit and its configured value"
(spec §4.7, §7; README documents the `maxCallDepth` option,
default 100). -/
def depthLimitResult (maxCallDepth : Nat) : ExecResult :=
  { stdout := ""
    stderr := "bash: maximum call depth exceeded (" ++ toString maxCallDepth ++ ")\n"
    exitCode := 1 }

/-- Modelled from the spec: the Execution Governor (§4.7) and its
integration into the function-call protocol (§4.4) are code of this
repository that is not under src/ — the README documents the
`maxCallDepth` constructor option while the `BashEnv` revision in
src/unnamed/part_001 predates it.  Per the spec, every function
invocation passes `enterCall()`, which increments a depth counter
local to one invocation tree (reset per top-level `exec`) and raises
the recoverable limit condition once the configured maximum is
exceeded.  `calls name` abstracts the function table: the function
that `name`'s body invokes in turn (`none`: the body returns
successfully without calling further). -/
def runCall (calls : String → Option String) (maxCallDepth : Nat)
    (depth : Nat) (f : String) : ExecResult :=
  if h : maxCallDepth ≤ depth then depthLimitResult maxCallDepth
  else
    match calls f with
    | none => { stdout := "", stderr := "", exitCode := 0 }
    | some g => runCall calls maxCallDepth (depth + 1) g
termination_by maxCallDepth - depth
decreasing_by
  simp only [not_le] at h
  omega

/-- A self-recursive function always drives the governor to its
limit, from any starting depth. -/
theorem runCall_self_rec (calls : String → Option String) (f : String)
    (maxCallDepth : Nat) (hf : calls f = some f) :
    ∀ depth, runCall calls maxCallDepth depth f = depthLimitResult maxCallDepth := by
  have key : ∀ n depth, maxCallDepth - depth ≤ n →
      runCall calls maxCallDepth depth f = depthLimitResult maxCallDepth := by
    intro n
    induction n with
    | zero =>
      intro depth hd
      rw [runCall, dif_pos (by omega)]
    | succ n ih =>
      intro depth hd
      rw [runCall]
      by_cases hc : maxCallDepth ≤ depth
      · rw [dif_pos hc]
      · rw [dif_neg hc, hf]
        exact ih (depth + 1) (by omega)
  exact fun depth => key (maxCallDepth - depth) depth le_rfl

end BashEnv

section ClaimC5

open BashEnv

/-- C5 (spec-modelled): a function whose body calls itself recursively
makes `exec` return, instead of recursing unboundedly, an `ExecResult`
with non-zero exit code whose message names the exceeded limit and its
configured value; and a subsequent top-level `exec` on the same
instance — the depth counter being reset per invocation tree —
proceeds normally (a non-recursive function succeeds). -/
theorem claim_C5_call_depth_limit (calls : String → Option String)
    (f g : String) (maxCallDepth : Nat)
    (hf : calls f = some f) (hg : calls g = none) (hmax : 0 < maxCallDepth) :
    runCall calls maxCallDepth 0 f = depthLimitResult maxCallDepth
    ∧ (depthLimitResult maxCallDepth).exitCode ≠ 0
    ∧ (depthLimitResult maxCallDepth).stderr =
        "bash: maximum call depth exceeded (" ++ toString maxCallDepth ++ ")\n"
    ∧ runCall calls maxCallDepth 0 g = { stdout := "", stderr := "", exitCode := 0 } := by
  refine ⟨runCall_self_rec calls f maxCallDepth hf 0, by simp [depthLimitResult], rfl, ?_⟩
  rw [runCall, dif_neg (by omega), hg]

/-- Witness for C5's theorem at a concrete input: `loop() { loop; }`
against the default limit 100; `ok() { }` runs fine afterwards. -/
theorem claim_C5_call_depth_limit_witness :
    runCall (fun n => if n == "loop" then some "loop" else none) 100 0 "loop" =
      depthLimitResult 100
    ∧ (depthLimitResult 100).exitCode ≠ 0
    ∧ (depthLimitResult 100).stderr =
        "bash: maximum call depth exceeded (" ++ toString 100 ++ ")\n"
    ∧ runCall (fun n => if n == "loop" then some "loop" else none) 100 0 "ok" =
      { stdout := "", stderr := "", exitCode := 0 } :=
  claim_C5_call_depth_limit (fun n => if n == "loop" then some "loop" else none)
    "loop" "ok" 100 rfl rfl (by decide)

end ClaimC5

namespace BashEnv

/-- `/[A-Za-z_]/` (source: first character of a `$VAR` name). -/
def isVarStart (c : Char) : Bool := c.isAlpha || c == '_'

/-- `/[A-Za-z0-9_]/` (source: subsequent characters of a `$VAR` name). -/
def isVarChar (c : Char) : Bool := c.isAlpha || c.isDigit || c == '_'

/-- `'@#$?!*'.includes(nextChar)` (source: special one-character
variables). -/
def isSpecialVar (c : Char) : Bool := c ∈ ['@', '#', '$', '?', '!', '*']

/-- A JavaScript `LineTerminator` (LF, CR, LS, PS): the characters the
regex metacharacter `.` does *not* match without the `s` flag. -/
def isLineTerminator (c : Char) : Bool :=
  c == '\n' || c == '\r' || c == '\u2028' || c == '\u2029'

/-- The source regex `/^([^:]+):-(.*)$/` over a `${...}` content:
the name is everything before the first colon (the negated class
`[^:]` matches line terminators, so the name may contain them), which
must exist, be preceded by at least one character, and be immediately
followed by `-`; the default is the rest, which `(.*)$` — `.`
excluding line terminators, `$` anchoring at the end of input —
accepts only when it contains no line terminator.  `[^:]+` has no
other backtracking opportunity: the character after the matched prefix
must be `:`, and the class excludes `:`, so only the first colon
qualifies. -/
def splitDefault (content : List Char) : Option (List Char × List Char) :=
  match List.findIdx? (· == ':') content with
  | some i =>
    if 0 < i && (content.drop i).take 2 == [':', '-']
        && !(content.drop (i + 2)).any isLineTerminator then
      some (content.take i, content.drop (i + 2))
    else none
  | none => none

/-- Expansion of a `${...}` content against the environment:
`${VAR:-default}` uses the default iff `VAR` is absent (`??` in the
source — a present-but-empty value is used as is); `${VAR}` of an
absent variable gives the empty string. -/
def expandBraceContent (env : String → Option String) (content : List Char) : String :=
  match splitDefault content with
  | some (name, dflt) => (env (String.mk name)).getD (String.mk dflt)
  | none => (env (String.mk content)).getD ""

/-- Auxiliary: `dropWhile` never lengthens a list (for termination). -/
theorem lengthDropWhileLe (p : Char → Bool) (l : List Char) :
    (l.dropWhile p).length ≤ l.length := by
  induction l with
  | nil => simp
  | cons x t ih =>
    rw [List.dropWhile_cons]
    split
    · exact Nat.le_succ_of_le ih
    · simp

/-- The scanning loop of `BashEnv.expandVariables`
(src/unnamed/part_001 lines 689–751) over the remaining characters:
`${...}` (falling through to the literal-`$` case when unclosed),
special one-character variables, positional digits, greedy `$VAR`
names, and a literal `$` otherwise.  Total by construction — the
claim's "never throws". -/
def expandVarsAux (env : String → Option String) : List Char → String
  | [] => ""
  | [c] => String.mk [c]
  | c :: n :: rest2 =>
    if c == '$' then
      if n == '{' then
        match List.findIdx? (· == '}') rest2 with
        | some j =>
          expandBraceContent env (rest2.take j) ++ expandVarsAux env (rest2.drop (j + 1))
        | none => String.mk [c] ++ expandVarsAux env (n :: rest2)
      else if isSpecialVar n || n.isDigit then
        (env (String.mk [n])).getD "" ++ expandVarsAux env rest2
      else if isVarStart n then
        (env (String.mk (n :: rest2.takeWhile isVarChar))).getD ""
          ++ expandVarsAux env (rest2.dropWhile isVarChar)
      else
        String.mk [c] ++ expandVarsAux env (n :: rest2)
    else
      String.mk [c] ++ expandVarsAux env (n :: rest2)
termination_by l => l.length
decreasing_by
  all_goals simp_wf
  all_goals try omega
  all_goals have hdw := lengthDropWhileLe isVarChar rest2
  all_goals omega

/-- `BashEnv.expandVariables` (src/unnamed/part_001 lines 689–751):
execution-time variable expansion of a whole string; `env` abstracts
the `this.env[name]` lookup (`none` = absent, `??` supplies the
fallback). -/
def expandVariables (env : String → Option String) (s : String) : String :=
  expandVarsAux env s.data

end BashEnv

namespace ShellParser

open BashEnv (isVarStart isVarChar isSpecialVar expandBraceContent)

/-- `ShellParser.expandVariable` (src/unnamed/part_001 lines
1035–1102): parse-time expansion of the single variable reference
starting just after a `$`; returns the substituted value and the
number of characters consumed after the `$` (the source's
`endIndex - (startIndex + 1)`). -/
def expandVariable (env : String → Option String) : List Char → String × Nat
  | [] => ("$", 0)
  | c :: rest =>
    if c == '{' then
      match List.findIdx? (· == '}') rest with
      | some k =>
        (expandBraceContent env (rest.take k), k + 2)
      | none => ("$\x7b", 1)
    else if isSpecialVar c || c.isDigit then
      ((env (String.mk [c])).getD "", 1)
    else if isVarStart c then
      let nameChars := c :: rest.takeWhile isVarChar
      ((env (String.mk nameChars)).getD "", nameChars.length)
    else ("$", 0)

end ShellParser

namespace BashEnv

/-- `findIdx?` misses a list on which the predicate is everywhere
false. -/
theorem findIdxQ_eq_none (p : Char → Bool) (l : List Char) (h : ∀ x ∈ l, p x = false) :
    ∀ i, List.findIdx? p l i = none := by
  induction l with
  | nil => intro i; rfl
  | cons x t ih =>
    intro i
    rw [List.findIdx?_cons, if_neg (by simp [h x (by simp)])]
    exact ih (fun y hy => h y (by simp [hy])) (i + 1)

/-- `findIdx?` finds the first hit after a miss-only prefix. -/
theorem findIdxQ_append_cons (p : Char → Bool) (l1 : List Char) (x : Char) (l2 : List Char)
    (h : ∀ y ∈ l1, p y = false) (hx : p x = true) :
    ∀ i, List.findIdx? p (l1 ++ x :: l2) i = some (i + l1.length) := by
  induction l1 generalizing x l2 with
  | nil =>
    intro i
    rw [List.nil_append, List.findIdx?_cons, if_pos hx]
    simp
  | cons y t ih =>
    intro i
    rw [List.cons_append, List.findIdx?_cons, if_neg (by simp [h y (by simp)])]
    rw [ih _ _ (fun z hz => h z (by simp [hz])) hx (i + 1)]
    simp
    omega

/-- A `$VAR` start character is not a digit (the source checks the
digit branch first). -/
theorem isDigit_eq_false_of_isVarStart (c : Char) (h : isVarStart c = true) :
    c.isDigit = false := by
  rw [isVarStart, Bool.or_eq_true] at h
  rcases h with h | h
  · unfold Char.isAlpha Char.isUpper Char.isLower at h
    unfold Char.isDigit
    simp only [Bool.or_eq_true, Bool.and_eq_true, decide_eq_true_eq, Char.le_def] at h
    simp only [Bool.and_eq_false_iff, decide_eq_false_iff_not, Char.le_def]
    have key : ∀ a b : UInt32, (a ≤ b) = (a.toNat ≤ b.toNat) :=
      fun a b => propext ⟨fun hab => hab, fun hab => hab⟩
    simp only [key] at h ⊢
    norm_num at h ⊢
    omega
  · have hc : c = '_' := by simpa using h
    subst hc
    decide

/-- A `$VAR` start character is not one of the special one-character
variables. -/
theorem isSpecialVar_eq_false_of_isVarStart (c : Char) (h : isVarStart c = true) :
    isSpecialVar c = false := by
  by_contra hs
  have hs2 : isSpecialVar c = true := by simpa using hs
  rw [isSpecialVar] at hs2
  simp only [List.mem_cons, List.mem_singleton, decide_eq_true_eq, List.not_mem_nil,
    or_false] at hs2
  rcases hs2 with h2 | h2 | h2 | h2 | h2 | h2 <;> subst h2 <;> simp [isVarStart] at h

/-- A `$VAR` start character is not `{`. -/
theorem beq_brace_eq_false_of_isVarStart (c : Char) (h : isVarStart c = true) :
    (c == '{') = false := by
  by_cases hc : c = '{'
  · subst hc; simp [isVarStart] at h
  · simp [hc]

end BashEnv

section ClaimC9

open BashEnv

/-- C9: variable expansion is total (both `BashEnv.expandVariables`
and `ShellParser.expandVariable` are total Lean functions — the
source's "never throws"); a `$VAR` or `${VAR}` reference to a variable
absent from the environment substitutes to the empty string; and
`${VAR:-default}` substitutes `(env VAR).getD default` — the default
exactly when `VAR` is absent, so a present-but-empty `VAR` gives the
empty string, not the default.  A default is the regex capture
`(.*)$`, whose `.` excludes JavaScript line terminators: `dflt` is
hypothesized line-terminator-free, and the last conjunct shows that
with a line terminator in the would-be default (`dlt2`) the construct
is *not* a default form — the whole content is looked up as a plain
variable name, yielding the empty string when absent. -/
theorem claim_C9_variable_expansion (env : String → Option String)
    (c : Char) (cs : List Char) (name dflt dlt2 : List Char)
    (hstart : isVarStart c = true) (hchars : ∀ x ∈ cs, isVarChar x = true)
    (habsent : env (String.mk (c :: cs)) = none)
    (hname : name ≠ []) (hcolon : ':' ∉ name) (hbrace : '}' ∉ name)
    (hdbrace : '}' ∉ dflt) (hdterm : dflt.any isLineTerminator = false)
    (hdbrace2 : '}' ∉ dlt2) (hterm2 : dlt2.any isLineTerminator = true) :
    expandVariables env (String.mk ('$' :: c :: cs)) = ""
    ∧ expandVariables env (String.mk ('$' :: '{' :: (name ++ ['}']))) =
        (env (String.mk name)).getD ""
    ∧ expandVariables env (String.mk ('$' :: '{' :: (name ++ ':' :: '-' :: (dflt ++ ['}']))))
        = (env (String.mk name)).getD (String.mk dflt)
    ∧ ShellParser.expandVariable env ('{' :: (name ++ ['}'])) =
        ((env (String.mk name)).getD "", name.length + 2)
    ∧ ShellParser.expandVariable env ('{' :: (name ++ ':' :: '-' :: (dflt ++ ['}']))) =
        ((env (String.mk name)).getD (String.mk dflt),
          (name ++ ':' :: '-' :: dflt).length + 2)
    ∧ expandVariables env (String.mk ('$' :: '{' :: (name ++ ':' :: '-' :: (dlt2 ++ ['}']))))
        = (env (String.mk (name ++ ':' :: '-' :: dlt2))).getD "" := by
  have hbrF : ∀ y ∈ name, (y == '}') = false := fun y hy =>
    beq_eq_false_iff_ne.mpr (fun hEq => hbrace (hEq ▸ hy))
  have hdbrF : ∀ y ∈ dflt, (y == '}') = false := fun y hy =>
    beq_eq_false_iff_ne.mpr (fun hEq => hdbrace (hEq ▸ hy))
  have hdbrF2 : ∀ y ∈ dlt2, (y == '}') = false := fun y hy =>
    beq_eq_false_iff_ne.mpr (fun hEq => hdbrace2 (hEq ▸ hy))
  have hcolF : ∀ y ∈ name, (y == ':') = false := fun y hy =>
    beq_eq_false_iff_ne.mpr (fun hEq => hcolon (hEq ▸ hy))
  have hLF : ∀ y ∈ name ++ ':' :: '-' :: dflt, (y == '}') = false := by
    intro y hy
    rcases List.mem_append.1 hy with hyn | hyr
    · exact hbrF y hyn
    · rcases hyr with _ | ⟨_, _ | ⟨_, hyd⟩⟩
      · rfl
      · rfl
      · exact hdbrF y hyd
  have hLF2 : ∀ y ∈ name ++ ':' :: '-' :: dlt2, (y == '}') = false := by
    intro y hy
    rcases List.mem_append.1 hy with hyn | hyr
    · exact hbrF y hyn
    · rcases hyr with _ | ⟨_, _ | ⟨_, hyd⟩⟩
      · rfl
      · rfl
      · exact hdbrF2 y hyd
  have hnil : expandVarsAux env [] = "" := by rw [expandVarsAux]
  have hsplitName : splitDefault name = none := by
    rw [splitDefault, findIdxQ_eq_none _ _ hcolF 0]
  have hidx : List.findIdx? (· == ':') (name ++ ':' :: '-' :: dflt) = some (0 + name.length) :=
    findIdxQ_append_cons _ name ':' ('-' :: dflt) hcolF rfl 0
  have hdrop2 : (name ++ ':' :: '-' :: dflt).drop name.length = ':' :: '-' :: dflt :=
    List.drop_left name _
  have hdropD : (name ++ ':' :: '-' :: dflt).drop (name.length + 2) = dflt := by
    rw [show name.length + 2 = (name ++ [':', '-']).length by simp,
      show name ++ ':' :: '-' :: dflt = (name ++ [':', '-']) ++ dflt by simp,
      List.drop_left]
  have hsplitL : splitDefault (name ++ ':' :: '-' :: dflt) = some (name, dflt) := by
    simp only [splitDefault, hidx, Nat.zero_add, hdrop2, hdropD]
    rw [if_pos]
    · rw [List.take_left]
    · simp [List.length_pos, hname, List.take, hdterm]
  have hidx2 : List.findIdx? (· == ':') (name ++ ':' :: '-' :: dlt2) = some (0 + name.length) :=
    findIdxQ_append_cons _ name ':' ('-' :: dlt2) hcolF rfl 0
  have hdropD2 : (name ++ ':' :: '-' :: dlt2).drop (name.length + 2) = dlt2 := by
    rw [show name.length + 2 = (name ++ [':', '-']).length by simp,
      show name ++ ':' :: '-' :: dlt2 = (name ++ [':', '-']) ++ dlt2 by simp,
      List.drop_left]
  have hsplitN2 : splitDefault (name ++ ':' :: '-' :: dlt2) = none := by
    simp only [splitDefault, hidx2, Nat.zero_add, hdropD2]
    rw [if_neg]
    simp [hterm2]
  refine ⟨?_, ?_, ?_, ?_, ?_, ?_⟩
  · show expandVarsAux env ('$' :: c :: cs) = ""
    rw [expandVarsAux,
      if_pos (show ('$' == '$') = true from rfl),
      if_neg (show ¬(c == '{') = true by simp [beq_brace_eq_false_of_isVarStart c hstart]),
      if_neg (show ¬(isSpecialVar c || c.isDigit) = true by
        simp [isSpecialVar_eq_false_of_isVarStart c hstart,
          isDigit_eq_false_of_isVarStart c hstart]),
      if_pos hstart,
      List.takeWhile_eq_self_iff.mpr hchars,
      List.dropWhile_eq_nil_iff.mpr hchars,
      habsent]
    rw [hnil]
    rfl
  · show expandVarsAux env ('$' :: '{' :: (name ++ ['}'])) = _
    rw [expandVarsAux,
      if_pos (show ('$' == '$') = true from rfl),
      if_pos (show ('{' == '{') = true from rfl)]
    rw [show name ++ ['}'] = name ++ '}' :: [] from rfl,
      findIdxQ_append_cons _ name '}' [] hbrF rfl 0]
    simp only [Nat.zero_add]
    rw [List.take_left,
      List.drop_eq_nil_of_le (by simp),
      expandBraceContent, hsplitName]
    rw [hnil, String.append_empty]
  · show expandVarsAux env ('$' :: '{' :: (name ++ ':' :: '-' :: (dflt ++ ['}']))) = _
    rw [expandVarsAux,
      if_pos (show ('$' == '$') = true from rfl),
      if_pos (show ('{' == '{') = true from rfl)]
    rw [show name ++ ':' :: '-' :: (dflt ++ ['}'])
          = (name ++ ':' :: '-' :: dflt) ++ '}' :: [] by simp,
      findIdxQ_append_cons _ (name ++ ':' :: '-' :: dflt) '}' [] hLF rfl 0]
    simp only [Nat.zero_add]
    rw [List.take_left,
      List.drop_eq_nil_of_le (by simp; omega),
      expandBraceContent, hsplitL]
    rw [hnil, String.append_empty]
  · show ShellParser.expandVariable env ('{' :: (name ++ ['}'])) = _
    rw [ShellParser.expandVariable,
      if_pos (show ('{' == '{') = true from rfl)]
    rw [show name ++ ['}'] = name ++ '}' :: [] from rfl,
      findIdxQ_append_cons _ name '}' [] hbrF rfl 0]
    simp only [Nat.zero_add]
    rw [List.take_left, expandBraceContent, hsplitName]
  · show ShellParser.expandVariable env ('{' :: (name ++ ':' :: '-' :: (dflt ++ ['}']))) = _
    rw [ShellParser.expandVariable,
      if_pos (show ('{' == '{') = true from rfl)]
    rw [show name ++ ':' :: '-' :: (dflt ++ ['}'])
          = (name ++ ':' :: '-' :: dflt) ++ '}' :: [] by simp,
      findIdxQ_append_cons _ (name ++ ':' :: '-' :: dflt) '}' [] hLF rfl 0]
    simp only [Nat.zero_add]
    rw [List.take_left, expandBraceContent, hsplitL]
  · show expandVarsAux env ('$' :: '{' :: (name ++ ':' :: '-' :: (dlt2 ++ ['}']))) = _
    rw [expandVarsAux,
      if_pos (show ('$' == '$') = true from rfl),
      if_pos (show ('{' == '{') = true from rfl)]
    rw [show name ++ ':' :: '-' :: (dlt2 ++ ['}'])
          = (name ++ ':' :: '-' :: dlt2) ++ '}' :: [] by simp,
      findIdxQ_append_cons _ (name ++ ':' :: '-' :: dlt2) '}' [] hLF2 rfl 0]
    simp only [Nat.zero_add]
    rw [List.take_left,
      List.drop_eq_nil_of_le (by simp; omega),
      expandBraceContent, hsplitN2]
    rw [hnil, String.append_empty]

/-- Environment for the C9 witness: `HOME` is present and non-empty,
`EMPTY` is present but empty, everything else absent. -/
def envC9 : String → Option String := fun n =>
  if n == "HOME" then some "/home/user"
  else if n == "EMPTY" then some ""
  else none

/-- Witness for C9's theorem at a concrete input (`$USR` with `USR`
absent; `${HOME}`, `${HOME:-x}` with `HOME` present; and a would-be
default containing a newline, which is not a default form). -/
theorem claim_C9_variable_expansion_witness :
    expandVariables envC9 (String.mk ('$' :: 'U' :: ['S', 'R'])) = ""
    ∧ expandVariables envC9 (String.mk ('$' :: '{' :: (['H', 'O', 'M', 'E'] ++ ['}']))) =
        (envC9 (String.mk ['H', 'O', 'M', 'E'])).getD ""
    ∧ expandVariables envC9
        (String.mk ('$' :: '{' :: (['H', 'O', 'M', 'E'] ++ ':' :: '-' :: (['x'] ++ ['}']))))
        = (envC9 (String.mk ['H', 'O', 'M', 'E'])).getD (String.mk ['x'])
    ∧ ShellParser.expandVariable envC9 ('{' :: (['H', 'O', 'M', 'E'] ++ ['}'])) =
        ((envC9 (String.mk ['H', 'O', 'M', 'E'])).getD "", List.length ['H', 'O', 'M', 'E'] + 2)
    ∧ ShellParser.expandVariable envC9
        ('{' :: (['H', 'O', 'M', 'E'] ++ ':' :: '-' :: (['x'] ++ ['}']))) =
        ((envC9 (String.mk ['H', 'O', 'M', 'E'])).getD (String.mk ['x']),
          (['H', 'O', 'M', 'E'] ++ ':' :: '-' :: ['x']).length + 2)
    ∧ expandVariables envC9
        (String.mk ('$' :: '{' :: (['H', 'O', 'M', 'E'] ++ ':' :: '-' :: (['a', '\n', 'b'] ++ ['}']))))
        = (envC9 (String.mk (['H', 'O', 'M', 'E'] ++ ':' :: '-' :: ['a', '\n', 'b']))).getD "" :=
  claim_C9_variable_expansion envC9 'U' ['S', 'R'] ['H', 'O', 'M', 'E'] ['x'] ['a', '\n', 'b']
    (by decide) (by decide) (by decide) (by decide) (by decide) (by decide) (by decide)
    (by decide) (by decide) (by decide)

end ClaimC9

namespace ShellParser

/-- A token of the shell tokenizer (source: the `Token` interface in
`shell/parser.ts`).  `tokenize` emits only `word` and
operator/redirection tokens; the keyword `TokenType` variants
(`if`/`then`/`elif`/`else`/`fi`) are declared in the source but never
produced, so they are not modelled. -/
inductive Token where
  | word (value : String) (quoted : Bool)
  | pipe
  | andTok
  | orTok
  | semicolon
  | redirectStdout
  | redirectStdoutAppend
  | redirectStderr
  | redirectStderrAppend
  | redirectStderrToStdout
  | redirectStdin
deriving Repr, DecidableEq

/-- `ShellParser.tokenToText` (src/unnamed/part_001 lines 1153–1167). -/
def tokenToText : Token → String
  | Token.pipe => "|"
  | Token.andTok => "&&"
  | Token.orTok => "||"
  | Token.semicolon => ";"
  | Token.redirectStdout => ">"
  | Token.redirectStdoutAppend => ">>"
  | Token.redirectStderr => "2>"
  | Token.redirectStderrAppend => "2>>"
  | Token.redirectStderrToStdout => "2>&1"
  | Token.redirectStdin => "<"
  | Token.word v _ => v

/-- `token.type === 'word' && token.value === kw`. -/
def isWordVal (t : Token) (kw : String) : Bool :=
  match t with
  | Token.word v _ => v == kw
  | _ => false

/-- `token.type === 'word'`. -/
def isWordTok : Token → Bool
  | Token.word _ _ => true
  | _ => false

/-- `token.type === 'semicolon'`. -/
def isSemiTok : Token → Bool
  | Token.semicolon => true
  | _ => false

/-- The scan loop of `ShellParser.collectCompoundCommand`
(src/unnamed/part_001 lines 1107–1148) over the remaining tokens,
with the running depth as an `Int` (the source's counter may go
negative on a stray end keyword).  Returns the re-serialized text and
`some k` when the matching end keyword was found after `k` tokens
(the source continues *at* that token), `none` when the stream ran
out (unclosed compound command). -/
def collectAux (startKw endKw : String) : List Token → Int → String × Option Nat
  | [], _ => ("", none)
  | t :: rest, depth =>
    let tokenText := tokenToText t
    if isWordVal t endKw && !isWordVal t startKw && depth - 1 == 0 then
      (tokenText, some 0)
    else
      let depth2 := if isWordVal t startKw then depth + 1
                    else if isWordVal t endKw then depth - 1
                    else depth
      let sep : String := match rest with
        | [] => ""
        | t2 :: _ =>
          if isWordTok t && isWordTok t2 then " "
          else if !isSemiTok t && !isSemiTok t2 then " " else ""
      let res := collectAux startKw endKw rest depth2
      (tokenText ++ sep ++ res.1, res.2.map (· + 1))

/-- `ShellParser.collectCompoundCommand` on the token suffix starting
at the compound keyword: the collected text plus the number of tokens
to skip before the loop resumes (the source's `endIndex` relative to
the keyword; on an unclosed compound the source resumes at the last
token, `endIndex = tokens.length - 1`). -/
def collectCompoundCommand (startKw endKw : String) (toks : List Token) : String × Nat :=
  match collectAux startKw endKw toks 0 with
  | (text, some k) => (text, k)
  | (text, none) => (text, toks.length - 1)

/-- `ParsedCommand` (source: `shell/parser.ts`). -/
structure ParsedCommand where
  command : String
  args : List String
  quotedArgs : List Bool
  redirections : List Redirection
deriving Repr, DecidableEq

/-- `ChainedCommand` (source: `shell/parser.ts`). -/
structure ChainedCommand where
  parsed : ParsedCommand
  operator : ChainOp
deriving Repr, DecidableEq

/-- `Pipeline` (source: `shell/parser.ts`). -/
structure Pipeline where
  commands : List ChainedCommand
deriving Repr, DecidableEq

/-- The mutable locals of `ShellParser.buildPipelines`
(src/unnamed/part_001 lines 1172–1177): accumulated `pipelines`, the
`currentPipeline`'s command list, `currentArgs` (value and
quoted-flag), `currentRedirections`, and `lastOperator`. -/
structure BPState where
  pipelines : List Pipeline
  current : List ChainedCommand
  currentArgs : List (String × Bool)
  currentRedirections : List Redirection
  lastOperator : ChainOp
deriving Repr, DecidableEq

/-- `pushCommand` (src/unnamed/part_001 lines 1179–1194): flush
`currentArgs` (head = command word, tail = arguments) into the current
pipeline under `lastOperator`; a no-op when no words accumulated. -/
def pushCommand (st : BPState) : BPState :=
  match st.currentArgs with
  | [] => st
  | commandArg :: restArgs =>
    { st with
        current := st.current ++
          [{ parsed := { command := commandArg.1
                         args := restArgs.map Prod.fst
                         quotedArgs := restArgs.map Prod.snd
                         redirections := st.currentRedirections }
             operator := st.lastOperator }]
        currentArgs := []
        currentRedirections := [] }

/-- `pushPipeline` (src/unnamed/part_001 lines 1196–1202), which the
source invokes exactly once, after the token loop: flush the pending
command and emit the current pipeline if it is non-empty. -/
def pushPipeline (st : BPState) : List Pipeline :=
  let st2 := pushCommand st
  if st2.current.isEmpty then st2.pipelines
  else st2.pipelines ++ [{ commands := st2.current }]

/-- The token loop of `ShellParser.buildPipelines`
(src/unnamed/part_001 lines 1204–1289).  The compound-`if` case
re-serializes up to the matching `fi` into one quoted argument and
resumes *at* the returned index (the source's `continue` skips the
`i++`), which is why the recursion is on the suffix plus the
args-empty flag: resuming at the same position can happen only once,
with `currentArgs` freshly non-empty. -/
def buildLoop : List Token → BPState → BPState
  | [], st => st
  | Token.word v q :: rest, st =>
    if h : v == "if" && st.currentArgs.isEmpty then
      let res := collectCompoundCommand "if" "fi" (Token.word v q :: rest)
      buildLoop ((Token.word v q :: rest).drop res.2)
        { st with currentArgs := st.currentArgs ++ [(res.1, true)] }
    else
      buildLoop rest { st with currentArgs := st.currentArgs ++ [(v, q)] }
  | Token.pipe :: rest, st =>
    buildLoop rest { pushCommand st with lastOperator := ChainOp.pipe }
  | Token.andTok :: rest, st =>
    buildLoop rest { pushCommand st with lastOperator := ChainOp.andOp }
  | Token.orTok :: rest, st =>
    buildLoop rest { pushCommand st with lastOperator := ChainOp.orOp }
  | Token.semicolon :: rest, st =>
    buildLoop rest { pushCommand st with lastOperator := ChainOp.semi }
  | Token.redirectStdout :: Token.word tv _ :: rest2, st =>
    buildLoop rest2 { st with currentRedirections := st.currentRedirections ++
      [{ type := RedirType.stdout, target := some tv, append := false }] }
  | Token.redirectStdout :: rest, st => buildLoop rest st
  | Token.redirectStdoutAppend :: Token.word tv _ :: rest2, st =>
    buildLoop rest2 { st with currentRedirections := st.currentRedirections ++
      [{ type := RedirType.stdout, target := some tv, append := true }] }
  | Token.redirectStdoutAppend :: rest, st => buildLoop rest st
  | Token.redirectStderr :: Token.word tv _ :: rest2, st =>
    buildLoop rest2 { st with currentRedirections := st.currentRedirections ++
      [{ type := RedirType.stderr, target := some tv, append := false }] }
  | Token.redirectStderr :: rest, st => buildLoop rest st
  | Token.redirectStderrAppend :: Token.word tv _ :: rest2, st =>
    buildLoop rest2 { st with currentRedirections := st.currentRedirections ++
      [{ type := RedirType.stderr, target := some tv, append := true }] }
  | Token.redirectStderrAppend :: rest, st => buildLoop rest st
  | Token.redirectStderrToStdout :: rest, st =>
    buildLoop rest { st with currentRedirections := st.currentRedirections ++
      [{ type := RedirType.stderrToStdout, target := none, append := false }] }
  | Token.redirectStdin :: Token.word tv _ :: rest2, st =>
    buildLoop rest2 { st with currentRedirections := st.currentRedirections ++
      [{ type := RedirType.stdin, target := some tv, append := false }] }
  | Token.redirectStdin :: rest, st => buildLoop rest st
termination_by toks st => (toks.length, if st.currentArgs.isEmpty then 1 else 0)
decreasing_by
  all_goals simp_wf
  all_goals try (apply Prod.Lex.left; omega)
  · by_cases hk : (collectCompoundCommand "if" "fi" (Token.word v q :: rest)).2 = 0
    · rw [hk]
      simp only [Nat.sub_zero]
      apply Prod.Lex.right
      have hargs : st.currentArgs = [] := by
        simp only [Bool.and_eq_true] at h
        simpa using h.2
      rw [if_pos hargs]
      omega
    · apply Prod.Lex.left
      omega

/-- `ShellParser.buildPipelines` (src/unnamed/part_001 lines
1172–1293): run the token loop from the initial state, then flush once
(`pushPipeline` is called exactly once, after the loop — pipelines are
never split mid-stream). -/
def buildPipelines (tokens : List Token) : List Pipeline :=
  pushPipeline (buildLoop tokens
    { pipelines := [], current := [], currentArgs := [],
      currentRedirections := [], lastOperator := ChainOp.pipe })

end ShellParser

namespace ShellParser

/-- Invariant of the token loop of `buildPipelines`: `pipelines` stays
empty (the source flushes only once, after the loop); the first
command of the pipeline under construction, once present, has operator
`''`; while no command has been pushed yet the pending operator is
still `''`; and — once the first token has been consumed — some word
has been accumulated or some command pushed. -/
def BPInv (st : BPState) : Prop :=
  st.pipelines = []
  ∧ (∀ c cs, st.current = c :: cs → c.operator = ChainOp.pipe)
  ∧ (st.current = [] → st.lastOperator = ChainOp.pipe)
  ∧ (st.currentArgs ≠ [] ∨ st.current ≠ [])

theorem pushCommand_pipelines (st : BPState) :
    (pushCommand st).pipelines = st.pipelines := by
  cases harg : st.currentArgs <;> simp [pushCommand, harg]

/-- Under the invariant, `pushCommand` leaves a non-empty current
pipeline whose first command has operator `''`. -/
theorem pushCommand_inv (st : BPState) (hinv : BPInv st) :
    (pushCommand st).pipelines = []
    ∧ (∀ c cs, (pushCommand st).current = c :: cs → c.operator = ChainOp.pipe)
    ∧ (pushCommand st).current ≠ [] := by
  obtain ⟨h1, h2, h3, h4⟩ := hinv
  cases harg : st.currentArgs with
  | nil =>
    simp only [pushCommand, harg]
    refine ⟨h1, h2, ?_⟩
    rcases h4 with h | h
    · exact absurd harg h
    · exact h
  | cons a as =>
    simp only [pushCommand, harg]
    refine ⟨h1, ?_, by simp⟩
    intro c cs hc
    cases hcur : st.current with
    | nil =>
      rw [hcur, List.nil_append] at hc
      injection hc with hc1 _
      rw [← hc1]
      exact h3 hcur
    | cons c0 cs0 =>
      rw [hcur, List.cons_append] at hc
      injection hc with hc1 _
      rw [← hc1]
      exact h2 c0 cs0 hcur

/-- Appending a word to `currentArgs` preserves the invariant. -/
theorem BPInv_argAppend (st : BPState) (x : String × Bool) (hinv : BPInv st) :
    BPInv { st with currentArgs := st.currentArgs ++ [x] } := by
  obtain ⟨h1, h2, h3, h4⟩ := hinv
  exact ⟨h1, h2, h3, Or.inl (by simp)⟩

/-- Flushing the pending command and installing a new pending operator
preserves the invariant. -/
theorem BPInv_opStep (st : BPState) (X : ChainOp) (hinv : BPInv st) :
    BPInv { pushCommand st with lastOperator := X } := by
  obtain ⟨g1, g2, g3⟩ := pushCommand_inv st hinv
  exact ⟨g1, g2, fun hc => absurd hc g3, Or.inr g3⟩

/-- Recording a redirection preserves the invariant. -/
theorem BPInv_redir (st : BPState) (r : Redirection) (hinv : BPInv st) :
    BPInv { st with currentRedirections := st.currentRedirections ++ [r] } := by
  obtain ⟨h1, h2, h3, h4⟩ := hinv
  exact ⟨h1, h2, h3, h4⟩

/-- The token loop preserves the invariant. -/
theorem buildLoop_inv : ∀ (toks : List Token) (st : BPState),
    BPInv st → BPInv (buildLoop toks st) := by
  intro toks st
  induction toks, st using buildLoop.induct with
  | case1 st =>
    intro hinv
    rw [buildLoop]
    exact hinv
  | case2 v q rest st h res ih =>
    intro hinv
    rw [buildLoop, dif_pos h]
    exact ih (BPInv_argAppend st _ hinv)
  | case3 v q rest st h ih =>
    intro hinv
    rw [buildLoop, dif_neg h]
    exact ih (BPInv_argAppend st _ hinv)
  | case4 rest st ih =>
    intro hinv
    rw [buildLoop]
    exact ih (BPInv_opStep st _ hinv)
  | case5 rest st ih =>
    intro hinv
    rw [buildLoop]
    exact ih (BPInv_opStep st _ hinv)
  | case6 rest st ih =>
    intro hinv
    rw [buildLoop]
    exact ih (BPInv_opStep st _ hinv)
  | case7 rest st ih =>
    intro hinv
    rw [buildLoop]
    exact ih (BPInv_opStep st _ hinv)
  | case8 tv q rest2 st ih =>
    intro hinv
    rw [buildLoop]
    exact ih (BPInv_redir st _ hinv)
  | case9 rest st hne ih =>
    intro hinv
    rw [buildLoop.eq_8 st rest hne]
    exact ih hinv
  | case10 tv q rest2 st ih =>
    intro hinv
    rw [buildLoop]
    exact ih (BPInv_redir st _ hinv)
  | case11 rest st hne ih =>
    intro hinv
    rw [buildLoop.eq_10 st rest hne]
    exact ih hinv
  | case12 tv q rest2 st ih =>
    intro hinv
    rw [buildLoop]
    exact ih (BPInv_redir st _ hinv)
  | case13 rest st hne ih =>
    intro hinv
    rw [buildLoop.eq_12 st rest hne]
    exact ih hinv
  | case14 tv q rest2 st ih =>
    intro hinv
    rw [buildLoop]
    exact ih (BPInv_redir st _ hinv)
  | case15 rest st hne ih =>
    intro hinv
    rw [buildLoop.eq_14 st rest hne]
    exact ih hinv
  | case16 rest st ih =>
    intro hinv
    rw [buildLoop]
    exact ih (BPInv_redir st _ hinv)
  | case17 tv q rest2 st ih =>
    intro hinv
    rw [buildLoop]
    exact ih (BPInv_redir st _ hinv)
  | case18 rest st hne ih =>
    intro hinv
    rw [buildLoop.eq_17 st rest hne]
    exact ih hinv

end ShellParser

namespace ShellParser

/-- `buildLoop` never touches `pipelines` (the source's loop contains
no `pushPipeline` call). -/
theorem buildLoop_pipelines_eq : ∀ (toks : List Token) (st : BPState),
    (buildLoop toks st).pipelines = st.pipelines := by
  intro toks st
  induction toks, st using buildLoop.induct with
  | case1 st => rw [buildLoop]
  | case2 v q rest st h res ih => rw [buildLoop, dif_pos h]; exact ih
  | case3 v q rest st h ih => rw [buildLoop, dif_neg h]; exact ih
  | case4 rest st ih => rw [buildLoop]; rw [ih]; exact pushCommand_pipelines st
  | case5 rest st ih => rw [buildLoop]; rw [ih]; exact pushCommand_pipelines st
  | case6 rest st ih => rw [buildLoop]; rw [ih]; exact pushCommand_pipelines st
  | case7 rest st ih => rw [buildLoop]; rw [ih]; exact pushCommand_pipelines st
  | case8 tv q rest2 st ih => rw [buildLoop]; exact ih
  | case9 rest st hne ih => rw [buildLoop.eq_8 st rest hne]; exact ih
  | case10 tv q rest2 st ih => rw [buildLoop]; exact ih
  | case11 rest st hne ih => rw [buildLoop.eq_10 st rest hne]; exact ih
  | case12 tv q rest2 st ih => rw [buildLoop]; exact ih
  | case13 rest st hne ih => rw [buildLoop.eq_12 st rest hne]; exact ih
  | case14 tv q rest2 st ih => rw [buildLoop]; exact ih
  | case15 rest st hne ih => rw [buildLoop.eq_14 st rest hne]; exact ih
  | case16 rest st ih => rw [buildLoop]; exact ih
  | case17 tv q rest2 st ih => rw [buildLoop]; exact ih
  | case18 rest st hne ih => rw [buildLoop.eq_17 st rest hne]; exact ih

end ShellParser

section ClaimC8

open ShellParser

/-- C8 counterexample: on the token stream of `"; a"` — which begins
with an operator token — the parser returns one pipeline whose first
`ChainedCommand` has operator `;`, not `''` (the leading `;` sets
`lastOperator` before any command is pushed). -/
theorem claim_C8_counterexample :
    buildPipelines [Token.semicolon, Token.word "a" false] =
      [⟨[⟨⟨"a", [], [], []⟩, ChainOp.semi⟩]⟩]
    ∧ ChainOp.semi ≠ ChainOp.pipe := by
  constructor
  · simp [buildPipelines, buildLoop, pushCommand, pushPipeline]
  · decide

/-- C8 (amended): for *every* token stream, every `Pipeline` the
parser returns is non-empty; and whenever the token stream begins with
a word token, the first `ChainedCommand` of every returned pipeline
has operator `''`.  When the stream begins with a chaining operator
(`;`, `&&`, `||`), that operator becomes the first command's operator
instead (see the counterexample). -/
theorem claim_C8_pipeline_invariants (toks : List Token) (v : String) (q : Bool)
    (rest : List Token) (p p2 : Pipeline) (c : ChainedCommand) (cs : List ChainedCommand)
    (hp : p ∈ buildPipelines toks)
    (hp2 : p2 ∈ buildPipelines (Token.word v q :: rest))
    (hc : p2.commands = c :: cs) :
    p.commands ≠ [] ∧ c.operator = ChainOp.pipe := by
  constructor
  · rw [buildPipelines, pushPipeline] at hp
    have hpe : (pushCommand (buildLoop toks
        { pipelines := [], current := [], currentArgs := [],
          currentRedirections := [], lastOperator := ChainOp.pipe })).pipelines = [] := by
      rw [pushCommand_pipelines, buildLoop_pipelines_eq]
    by_cases hemp : (pushCommand (buildLoop toks
        { pipelines := [], current := [], currentArgs := [],
          currentRedirections := [], lastOperator := ChainOp.pipe })).current.isEmpty
    · rw [if_pos hemp, hpe] at hp
      exact absurd hp (List.not_mem_nil p)
    · rw [if_neg hemp, hpe, List.nil_append, List.mem_singleton] at hp
      subst hp
      simpa using hemp
  · have hinv0 : BPInv (buildLoop (Token.word v q :: rest)
        { pipelines := [], current := [], currentArgs := [],
          currentRedirections := [], lastOperator := ChainOp.pipe }) := by
      rw [buildLoop]
      split
      · apply buildLoop_inv
        refine ⟨rfl, ?_, fun _ => rfl, Or.inl (by simp)⟩
        intro c0 cs0 hcc
        exact absurd hcc (by simp)
      · apply buildLoop_inv
        refine ⟨rfl, ?_, fun _ => rfl, Or.inl (by simp)⟩
        intro c0 cs0 hcc
        exact absurd hcc (by simp)
    obtain ⟨g1, g2, g3⟩ := pushCommand_inv _ hinv0
    rw [buildPipelines, pushPipeline] at hp2
    rw [if_neg (by simpa using g3), g1, List.nil_append, List.mem_singleton] at hp2
    subst hp2
    exact g2 c cs hc

/-- Witness for C8's amended theorem at a concrete input. -/
theorem claim_C8_pipeline_invariants_witness :
    (⟨[⟨⟨"a", [], [], []⟩, ChainOp.pipe⟩]⟩ : Pipeline).commands ≠ []
    ∧ (⟨⟨"a", [], [], []⟩, ChainOp.pipe⟩ : ChainedCommand).operator = ChainOp.pipe := by
  have h := claim_C8_pipeline_invariants [Token.word "a" false] "a" false []
    ⟨[⟨⟨"a", [], [], []⟩, ChainOp.pipe⟩]⟩ ⟨[⟨⟨"a", [], [], []⟩, ChainOp.pipe⟩]⟩
    ⟨⟨"a", [], [], []⟩, ChainOp.pipe⟩ []
    (by simp [buildPipelines, buildLoop, pushCommand, pushPipeline])
    (by simp [buildPipelines, buildLoop, pushCommand, pushPipeline])
    rfl
  exact h

end ClaimC8

namespace BashEnv

/-- A redirection list consisting only of `stdin` redirections is a
complete no-op: the source `switch` has no `stdin` case. -/
theorem applyRedirections_stdin_only (resolve : String → String) (fs : FsState)
    (r : ExecResult) :
    ∀ redirs : List Redirection, (∀ rd ∈ redirs, rd.type = RedirType.stdin) →
      applyRedirections resolve fs r redirs = Except.ok (r, fs) := by
  intro redirs
  induction redirs with
  | nil => intro _; rfl
  | cons rd tl ih =>
    intro hall
    obtain ⟨ty, tg, ap⟩ := rd
    have hty : ty = RedirType.stdin := hall ⟨ty, tg, ap⟩ (by simp)
    subst hty
    exact ih (fun rd2 h2 => hall rd2 (by simp [h2]))

end BashEnv

section ClaimC10

open BashEnv ShellParser

/-- C10: a `< file` redirection is parsed by `buildPipelines` into a
`Redirection` of type `stdin`, but the engine never applies it: the
source `switch` in `applyRedirections` has no `stdin` case, so a
`stdin` redirection in front of any redirection list changes nothing
(second and third conjuncts — command dispatch included), and a
command whose redirections are all `stdin` returns its result and the
file system completely unchanged: no file is written — and none is
read, the engine's redirection path contains no read at all (the
result is the same for every file-system state, whatever the target
holds). -/
theorem claim_C10_stdin_redirection_parsed_not_applied
    (cmd f : String) (q q2 : Bool) (hcmd : (cmd == "if") = false)
    (resolve : String → String) (fs : FsState) (r : ExecResult)
    (command : String) (execu : FsState → (Except String ExecResult) × FsState)
    (target : Option String) (app : Bool) (rest : List Redirection)
    (redirs : List Redirection) (hall : ∀ rd ∈ redirs, rd.type = RedirType.stdin) :
    buildPipelines [Token.word cmd q, Token.redirectStdin, Token.word f q2] =
      [⟨[⟨⟨cmd, [], [], [⟨RedirType.stdin, some f, false⟩]⟩, ChainOp.pipe⟩]⟩]
    ∧ applyRedirections resolve fs r (⟨RedirType.stdin, target, app⟩ :: rest) =
        applyRedirections resolve fs r rest
    ∧ dispatchCommand resolve fs command execu (⟨RedirType.stdin, target, app⟩ :: rest) =
        dispatchCommand resolve fs command execu rest
    ∧ applyRedirections resolve fs r redirs = Except.ok (r, fs) := by
  refine ⟨?_, rfl, ?_, ?_⟩
  · simp [buildPipelines, buildLoop, pushCommand, pushPipeline, hcmd]
  · rcases hef : execu fs with ⟨o, f1⟩
    simp only [dispatchCommand, hef]
    rfl
  · exact applyRedirections_stdin_only resolve fs r redirs hall

/-- Witness for C10's theorem at a concrete input. -/
theorem claim_C10_stdin_redirection_parsed_not_applied_witness :
    buildPipelines [Token.word "cat" false, Token.redirectStdin, Token.word "in.txt" false] =
      [⟨[⟨⟨"cat", [], [], [⟨RedirType.stdin, some "in.txt", false⟩]⟩, ChainOp.pipe⟩]⟩]
    ∧ applyRedirections id { files := [("in.txt", "data")], failing := [] }
        { stdout := "out", stderr := "", exitCode := 0 }
        (⟨RedirType.stdin, some "in.txt", false⟩ :: []) =
      applyRedirections id { files := [("in.txt", "data")], failing := [] }
        { stdout := "out", stderr := "", exitCode := 0 } []
    ∧ dispatchCommand id { files := [("in.txt", "data")], failing := [] } "cat"
        (fun fss => (Except.ok { stdout := "out", stderr := "", exitCode := 0 }, fss))
        (⟨RedirType.stdin, some "in.txt", false⟩ :: []) =
      dispatchCommand id { files := [("in.txt", "data")], failing := [] } "cat"
        (fun fss => (Except.ok { stdout := "out", stderr := "", exitCode := 0 }, fss)) []
    ∧ applyRedirections id { files := [("in.txt", "data")], failing := [] }
        { stdout := "out", stderr := "", exitCode := 0 }
        [⟨RedirType.stdin, some "in.txt", false⟩] =
      Except.ok ({ stdout := "out", stderr := "", exitCode := 0 },
        { files := [("in.txt", "data")], failing := [] }) :=
  claim_C10_stdin_redirection_parsed_not_applied "cat" "in.txt" false false (by decide)
    id { files := [("in.txt", "data")], failing := [] }
    { stdout := "out", stderr := "", exitCode := 0 } "cat"
    (fun fss => (Except.ok { stdout := "out", stderr := "", exitCode := 0 }, fss))
    (some "in.txt") false []
    [⟨RedirType.stdin, some "in.txt", false⟩] (by decide)

end ClaimC10
